import Mathlib

/-!
Verification of the component-finder action
============================================

A shallow embedding of the two near-duplicate variants of the action's
`run` function (`src/main.ts`, called `Main` below, and the unnamed
dotfile variant, called `Part0` below), together with proofs about the
specifier normalizer, the recursive manifest scanner and the run-level
control flow.

JavaScript strings are modelled as `List Char`; `String.prototype.split`,
`trim` and the two validation regexes are modelled character by character.
The file system is a tree of entries; YAML parsing is modelled by the
outcome the scanner can observe: a parse error (the `yaml` library
throws), a document that parses to `null` (reading `.component` then
throws a `TypeError`), or a parsed mapping with an optional string
`component` field.
-/

/-- JavaScript strings, modelled as lists of characters. -/
abbrev Str := List Char

/-- The whitespace characters `String.prototype.trim` removes (the ASCII
ones; the action's inputs are ASCII). -/
def isJsWhitespace (c : Char) : Bool :=
  c = ' ' || c = '\t' || c = '\n' || c = '\r'

/-- `s.trim()`: leading and trailing whitespace removed. -/
def jsTrim (s : Str) : Str :=
  ((s.dropWhile isJsWhitespace).reverse.dropWhile isJsWhitespace).reverse

/-- `s.split(sep)` for a one-character separator: JavaScript semantics,
so the result is never empty (`''.split(',') = ['']`). -/
def jsSplit (sep : Char) : Str → List Str
  | [] => [[]]
  | c :: rest =>
    match jsSplit sep rest with
    | [] => [[]]
    | h :: t => if c = sep then [] :: h :: t else (c :: h) :: t

/-- Joins segments back with the separator; inverse of `jsSplit`. -/
def joinSep (sep : Char) : List Str → Str
  | [] => []
  | [x] => x
  | x :: y :: rest => x ++ sep :: joinSep sep (y :: rest)

theorem jsSplit_ne_nil (sep : Char) (s : Str) : jsSplit sep s ≠ [] := by
  cases s with
  | nil => simp [jsSplit]
  | cons c rest =>
    simp only [jsSplit]
    cases jsSplit sep rest with
    | nil => simp
    | cons h t =>
      by_cases hc : c = sep <;> simp [hc]

theorem jsSplit_cons_cons (sep c : Char) (rest : Str) (h : Str) (t : List Str)
    (hr : jsSplit sep rest = h :: t) :
    jsSplit sep (c :: rest) = if c = sep then [] :: h :: t else (c :: h) :: t := by
  simp only [jsSplit, hr]

theorem joinSep_cons_cons (sep : Char) (c : Char) (h : Str) (t : List Str) :
    joinSep sep ((c :: h) :: t) = c :: joinSep sep (h :: t) := by
  cases t with
  | nil => simp [joinSep]
  | cons u us => simp [joinSep]

theorem joinSep_jsSplit (sep : Char) (s : Str) : joinSep sep (jsSplit sep s) = s := by
  induction s with
  | nil => simp [jsSplit, joinSep]
  | cons c rest ih =>
    simp only [jsSplit]
    rcases hr : jsSplit sep rest with _ | ⟨h, t⟩
    · exact absurd hr (jsSplit_ne_nil sep rest)
    · rw [hr] at ih
      by_cases hc : c = sep
      · simp only [hc, if_pos rfl]
        calc joinSep sep ([] :: h :: t) = sep :: joinSep sep (h :: t) := by simp [joinSep]
          _ = sep :: rest := by rw [ih]
      · simp only [if_neg hc]
        rw [joinSep_cons_cons, ih]

theorem jsSplit_parts_no_sep (sep : Char) (s : Str) :
    ∀ x ∈ jsSplit sep s, sep ∉ x := by
  induction s with
  | nil => simp [jsSplit]
  | cons c rest ih =>
    rcases hr : jsSplit sep rest with _ | ⟨h, t⟩
    · exact absurd hr (jsSplit_ne_nil sep rest)
    · rw [jsSplit_cons_cons sep c rest h t hr]
      rw [hr] at ih
      by_cases hc : c = sep
      · rw [if_pos hc]
        intro x hx
        simp only [List.mem_cons] at hx
        rcases hx with rfl | hx
        · exact List.not_mem_nil sep
        · exact ih x (List.mem_cons.mpr hx)
      · rw [if_neg hc]
        intro x hx
        simp only [List.mem_cons] at hx
        rcases hx with rfl | hx
        · intro hmem
          simp only [List.mem_cons] at hmem
          rcases hmem with rfl | hmem
          · exact hc rfl
          · exact ih h (List.mem_cons_self h t) hmem
        · exact ih x (List.mem_cons_of_mem h hx)

theorem jsSplit_singleton {sep : Char} {s : Str} {n : Str}
    (h : jsSplit sep s = [n]) : s = n ∧ sep ∉ s := by
  have hj := joinSep_jsSplit sep s
  rw [h] at hj
  simp only [joinSep] at hj
  refine ⟨hj.symm, ?_⟩
  have hns := jsSplit_parts_no_sep sep s n (by simp [h])
  rw [hj] at hns
  exact hns

theorem jsSplit_pair {sep : Char} {s : Str} {n v : Str}
    (h : jsSplit sep s = [n, v]) : s = n ++ sep :: v ∧ sep ∉ n ∧ sep ∉ v := by
  have hj := joinSep_jsSplit sep s
  rw [h] at hj
  simp only [joinSep] at hj
  refine ⟨hj.symm, ?_, ?_⟩
  · exact jsSplit_parts_no_sep sep s n (by simp [h])
  · exact jsSplit_parts_no_sep sep s v (by simp [h])

/-! ## The specifier normalizer (Step 1 of `run`) -/

/-- The characters of the validation regex's class `[a-zA-Z0-9_\-.]`. -/
def isComponentChar (c : Char) : Bool :=
  c.isAlphanum || c = '_' || c = '-' || c = '.'

/-- `validComponentRegex.test s` for `^[a-zA-Z0-9_\-.]+(:[a-zA-Z0-9_\-.]+)?$`.
`:` is not in the character class, so a string matches exactly when splitting
on `:` yields one nonempty run of class characters, or two. -/
def validComponentRegex (s : Str) : Bool :=
  match jsSplit ':' s with
  | [n] => !n.isEmpty && n.all isComponentChar
  | [n, v] => !n.isEmpty && n.all isComponentChar && !v.isEmpty && v.all isComponentChar
  | _ => false

/-- `specifier.split(':')[0]` — the name part, as both variants compute it. -/
def specifierName (s : Str) : Str := (jsSplit ':' s).headD []

def latestSuffix : Str := String.toList ":latest"

/-- The `core.error` diagnostic for a token failing the pattern. -/
def invalidComponentMsg (c : Str) : Str :=
  String.toList "Invalid component name: " ++ c

/-- The Step-1 validation loop, common to both variants: builds
`newComponents` and the list of `core.error` diagnostics, in input order.
A token containing a colon is rebuilt as `name:version` from
`split(':')[0]` and `split(':')[1]`; one without gets `:latest`. -/
def validateComponents : List Str → List Str × List Str
  | [] => ([], [])
  | component :: rest =>
    let r := validateComponents rest
    if !validComponentRegex component then
      (r.1, invalidComponentMsg component :: r.2)
    else if (jsSplit ':' component).length > 1 then
      (((jsSplit ':' component).headD [] ++ ':' :: (jsSplit ':' component).getD 1 []) :: r.1, r.2)
    else
      ((component ++ latestSuffix) :: r.1, r.2)

/-- Specifier normalization as §4.1 of the spec words it: a valid token
containing a colon splits into name and version on the FIRST colon; a
valid token without one gets version `latest`; an invalid token is
dropped. Spec-side definition, compared with `validateComponents`. -/
def specNormalizeToken (t : Str) : Option Str :=
  if validComponentRegex t then
    if t.any (· == ':') then
      some (t.takeWhile (· != ':') ++ ':' :: (t.dropWhile (· != ':')).drop 1)
    else
      some (t ++ latestSuffix)
  else none

theorem takeWhile_append_colon (n v : Str) (hn : ':' ∉ n) :
    (n ++ ':' :: v).takeWhile (· != ':') = n ∧
    (n ++ ':' :: v).dropWhile (· != ':') = ':' :: v := by
  induction n with
  | nil => simp [List.takeWhile, List.dropWhile]
  | cons a n' ih =>
    have ha : a ≠ ':' := fun h => hn (by simp [h])
    have hn' : ':' ∉ n' := fun h => hn (List.mem_cons_of_mem a h)
    have ih' := ih hn'
    constructor
    · simp only [List.cons_append, List.takeWhile]
      rw [show (a != ':') = true by simpa using ha]
      simp [ih'.1]
    · simp only [List.cons_append, List.dropWhile]
      rw [show (a != ':') = true by simpa using ha]
      simp [ih'.2]

theorem anyColon_iff (l : Str) : (l.any (· == ':')) = true ↔ ':' ∈ l := by
  simp [List.any_eq_true]

theorem validateComponents_eq_spec (cs : List Str) :
    (validateComponents cs).1 = cs.filterMap specNormalizeToken ∧
    (validateComponents cs).2 =
      (cs.filter (fun t => !validComponentRegex t)).map invalidComponentMsg := by
  induction cs with
  | nil => simp [validateComponents]
  | cons component rest ih =>
    by_cases hv : validComponentRegex component = true
    · rcases hs : jsSplit ':' component with _ | ⟨n, _ | ⟨v, more⟩⟩
      · exact absurd hs (jsSplit_ne_nil ':' component)
      · -- no colon in the token: the `:latest` branch on both sides
        obtain ⟨rfl, hno⟩ := jsSplit_singleton hs
        constructor
        · simp [validateComponents, specNormalizeToken, hv, hs, hno, ih.1]
        · simp [validateComponents, hv, hs, ih.2]
      · rcases more with _ | ⟨u, more'⟩
        · -- exactly one colon: both sides rebuild n ++ ':' :: v
          obtain ⟨hc, hn, hvn⟩ := jsSplit_pair hs
          have htw := takeWhile_append_colon n v hn
          subst hc
          constructor
          · simp [validateComponents, specNormalizeToken, hv, hs, htw.1, htw.2, ih.1]
          · simp [validateComponents, hv, hs, ih.2]
        · -- three or more segments: the regex rejects the token
          exfalso
          simp [validComponentRegex, hs] at hv
    · have hv' : validComponentRegex component = false := by simpa using hv
      constructor
      · simp [validateComponents, specNormalizeToken, hv', ih.1]
      · simp [validateComponents, hv', ih.2]

/-! ## Paths and the file-system model -/

/-- A file-system path: `isAbs` says whether it starts at the root,
`segs` are its components. -/
structure FPath where
  isAbs : Bool
  segs : List Str
deriving DecidableEq

/-- A path string parsed: absolute iff it starts with `/` (POSIX). -/
def parseFPath (s : Str) : FPath :=
  { isAbs := decide (s.head? = some '/'),
    segs := (jsSplit '/' s).filter (fun seg => !seg.isEmpty) }

/-- A path rendered back to text (for warning messages). -/
def renderFPath (p : FPath) : Str :=
  (if p.isAbs then ['/'] else []) ++ joinSep '/' p.segs

/-- `path.join(dir, name)` for a plain entry name: appends one segment. -/
def pathJoin (p : FPath) (name : Str) : FPath :=
  { p with segs := p.segs ++ [name] }

/-- `path.resolve(p)`: an absolute path stays as is, a relative one is
resolved against the current working directory. -/
def pathResolve (cwd : List Str) (p : FPath) : FPath :=
  if p.isAbs then p else { isAbs := true, segs := cwd ++ p.segs }

/-- `path.resolve(base, p)`: `p` if absolute, else `base` extended by
`p`, with `base` itself resolved against the working directory when it
is relative (the result is always absolute). -/
def pathResolve2 (cwd : List Str) (base : FPath) (p : FPath) : FPath :=
  if p.isAbs then p
  else if base.isAbs then { isAbs := true, segs := base.segs ++ p.segs }
  else { isAbs := true, segs := cwd ++ base.segs ++ p.segs }

/-- What the scanner can observe of a manifest file's content:
`yaml.parse` throws (`malformed`), parses to `null` (reading
`.component` then throws a `TypeError`), or yields a document whose
`component` field is the given optional string (`none` both for a
missing field and for a non-string value, which the later `===` against
a string treats the same way). -/
inductive Yaml where
  | malformed : Yaml
  | nullDoc : Yaml
  | obj : Option Str → Yaml
deriving DecidableEq

/-- The message of the error `yaml.parse` throws on malformed content
(the exact text is the library's; a fixed text stands in for it). -/
def yamlParseErrorMsg : Str := String.toList "YAMLParseError: malformed component file"

/-- The `TypeError` message for reading `.component` of `null` (a fixed
text stands in for the runtime's). -/
def nullComponentErrorMsg : Str :=
  String.toList "TypeError: cannot read properties of null"

/-- `yaml.parse(componentConfig).component`, with the two throwing outcomes. -/
def readComponent : Yaml → Except Str (Option Str)
  | .malformed => .error yamlParseErrorMsg
  | .nullDoc => .error nullComponentErrorMsg
  | .obj c => .ok c

/-- A directory tree entry: a file with content, or a subdirectory with
its entries in listing order. -/
inductive FSEntry where
  | file : Str → Yaml → FSEntry
  | dir : Str → List FSEntry → FSEntry

/-! ## The manifest scanner -/

/-- The scanner's accumulating state: `componentMap` (a JS object keyed
by requested specifier, modelled as a lookup function) and
`foundComponents`. -/
structure ScanState where
  componentMap : Str → Option FPath
  foundComponents : List Str

def initialScanState : ScanState := ⟨fun _ => none, []⟩

/-- `componentMap[k] = v`: assignment to a JS object key. -/
def mapSet (m : Str → Option FPath) (k : Str) (v : FPath) : Str → Option FPath :=
  fun q => if q = k then some v else m q

/-- The inner loop over the request list once a manifest file was parsed:
for every `neededComponent` whose `split(':')[0]` equals the declared
`component`, record the resolved path and push the declared name. `comp`
is `none` when the parsed mapping has no string `component` field, and
the `===` against a string is then false. In the matching branch the
declared name equals `specifierName needed`, which is what is pushed. -/
def matchLoop (resolved : FPath) (comp : Option Str) : List Str → ScanState → ScanState
  | [], st => st
  | needed :: rest, st =>
    if some (specifierName needed) = comp then
      matchLoop resolved comp rest
        { componentMap := mapSet st.componentMap needed resolved,
          foundComponents := st.foundComponents ++ [specifierName needed] }
    else
      matchLoop resolved comp rest st

/-- `searchForComponent`, recursing over the entries of the directory at
`dirPath`. `pat` is the manifest filename predicate applied to the base
name, `comps` the list the variant iterates over (`components` in
`Main`, `newComponents` in `Part0`). Directory entries recurse first
(`stat.isDirectory()` is tested before the filename pattern); a parse
error propagates through `Except.bind` and aborts the whole traversal,
exactly as the thrown exception does in the source. -/
def searchForComponent (pat : Str → Bool) (comps : List Str) (cwd : List Str) :
    FPath → List FSEntry → ScanState → Except Str ScanState
  | _, [], st => .ok st
  | dirPath, FSEntry.file name content :: rest, st =>
    if pat name then
      (readComponent content).bind fun comp =>
        searchForComponent pat comps cwd dirPath rest
          (matchLoop (pathResolve cwd (pathJoin dirPath name)) comp comps st)
    else
      searchForComponent pat comps cwd dirPath rest st
  | dirPath, FSEntry.dir name entries :: rest, st =>
    (searchForComponent pat comps cwd (pathJoin dirPath name) entries st).bind fun st1 =>
      searchForComponent pat comps cwd dirPath rest st1

/-- The manifest files a depth-first traversal of the entries visits, in
visit order, with their joined (unresolved) paths and contents. -/
def dfsManifests (pat : Str → Bool) : FPath → List FSEntry → List (FPath × Yaml)
  | _, [] => []
  | dirPath, FSEntry.file name content :: rest =>
    (if pat name then [(pathJoin dirPath name, content)] else []) ++
      dfsManifests pat dirPath rest
  | dirPath, FSEntry.dir name entries :: rest =>
    dfsManifests pat (pathJoin dirPath name) entries ++ dfsManifests pat dirPath rest

def scanOk {ε α : Type} : Except ε α → Bool
  | .ok _ => true
  | .error _ => false

/-! ## How the scanner updates the match mapping -/

def optOr {α : Type} : Option α → Option α → Option α
  | some x, _ => some x
  | none, b => b

theorem optOr_assoc {α : Type} (a b c : Option α) :
    optOr (optOr a b) c = optOr a (optOr b c) := by
  cases a <;> simp [optOr]

/-- The resolved path of the last manifest of `files` declaring the name
part of `k` as its `component`. -/
def lastMatchPath (cwd : List Str) (k : Str) (files : List (FPath × Yaml)) : Option FPath :=
  ((files.filter (fun f => f.2 = Yaml.obj (some (specifierName k)))).getLast?).map
    (fun f => pathResolve cwd f.1)

theorem head?_append_opt {α : Type} (l l' : List α) :
    (l ++ l').head? = optOr l.head? l'.head? := by
  cases l <;> simp [optOr]

theorem getLast?_append_opt {α : Type} (xs ys : List α) :
    (xs ++ ys).getLast? = optOr ys.getLast? xs.getLast? := by
  rw [← List.head?_reverse, List.reverse_append, head?_append_opt,
    List.head?_reverse, List.head?_reverse]

theorem lastMatchPath_append (cwd : List Str) (k : Str) (xs ys : List (FPath × Yaml)) :
    lastMatchPath cwd k (xs ++ ys) =
      optOr (lastMatchPath cwd k ys) (lastMatchPath cwd k xs) := by
  unfold lastMatchPath
  rw [List.filter_append, getLast?_append_opt]
  cases h : (ys.filter (fun f => decide (f.2 = Yaml.obj (some (specifierName k))))).getLast? <;>
    simp [optOr, h]

theorem lastMatchPath_single (cwd : List Str) (k : Str) (p : FPath) (c : Yaml) :
    lastMatchPath cwd k [(p, c)] =
      if c = Yaml.obj (some (specifierName k)) then some (pathResolve cwd p) else none := by
  by_cases h : c = Yaml.obj (some (specifierName k)) <;> simp [lastMatchPath, h]

theorem matchLoop_componentMap (resolved : FPath) (comp : Option Str) :
    ∀ (comps : List Str) (st : ScanState) (k : Str),
      (matchLoop resolved comp comps st).componentMap k =
        if k ∈ comps ∧ comp = some (specifierName k) then some resolved
        else st.componentMap k := by
  intro comps
  induction comps with
  | nil =>
    intro st k
    simp [matchLoop]
  | cons needed rest ih =>
    intro st k
    by_cases hb : some (specifierName needed) = comp
    · simp only [matchLoop, if_pos hb]
      rw [ih]
      by_cases hk : k ∈ rest ∧ comp = some (specifierName k)
      · rw [if_pos hk, if_pos ⟨List.mem_cons_of_mem _ hk.1, hk.2⟩]
      · rw [if_neg hk]
        simp only [mapSet]
        by_cases hkn : k = needed
        · subst hkn
          rw [if_pos rfl, if_pos ⟨List.mem_cons_self _ _, hb.symm⟩]
        · have hcond : ¬(k ∈ needed :: rest ∧ comp = some (specifierName k)) := by
            rintro ⟨hmem, hcomp⟩
            rcases List.mem_cons.mp hmem with rfl | hmem'
            · exact hkn rfl
            · exact hk ⟨hmem', hcomp⟩
          rw [if_neg hkn, if_neg hcond]
    · simp only [matchLoop, if_neg hb]
      rw [ih]
      by_cases hk : k ∈ rest ∧ comp = some (specifierName k)
      · rw [if_pos hk, if_pos ⟨List.mem_cons_of_mem _ hk.1, hk.2⟩]
      · have hcond : ¬(k ∈ needed :: rest ∧ comp = some (specifierName k)) := by
          rintro ⟨hmem, hcomp⟩
          rcases List.mem_cons.mp hmem with rfl | hmem'
          · exact hb hcomp.symm
          · exact hk ⟨hmem', hcomp⟩
        rw [if_neg hk, if_neg hcond]

/-- For every requested specifier, a successful traversal leaves in the
map the resolved path of the LAST depth-first-visited manifest whose
`component` equals the specifier's name, and the prior entry if none. -/
theorem searchForComponent_lookup (pat : Str → Bool) (comps : List Str) (cwd : List Str)
    (dirPath : FPath) (es : List FSEntry) (st : ScanState) :
    ∀ st', searchForComponent pat comps cwd dirPath es st = .ok st' →
      ∀ k, k ∈ comps →
        st'.componentMap k =
          optOr (lastMatchPath cwd k (dfsManifests pat dirPath es)) (st.componentMap k) := by
  induction dirPath, es, st using searchForComponent.induct pat comps cwd with
  | case1 dirPath st =>
    intro st' h k hk
    simp only [searchForComponent] at h
    cases h
    simp [dfsManifests, lastMatchPath, optOr]
  | case2 dirPath name content rest st hp ih =>
    intro st' h k hk
    simp only [searchForComponent, if_pos hp] at h
    cases content with
    | malformed => simp [readComponent, Except.bind] at h
    | nullDoc => simp [readComponent, Except.bind] at h
    | obj comp =>
      simp only [readComponent, Except.bind] at h
      have hstep := ih comp st' h k hk
      rw [matchLoop_componentMap] at hstep
      simp only [dfsManifests, if_pos hp, lastMatchPath_append, lastMatchPath_single]
      rw [hstep, optOr_assoc]
      by_cases hcase : k ∈ comps ∧ comp = some (specifierName k)
      · rw [if_pos hcase, if_pos (by simp [hcase.2])]
        cases hlast : lastMatchPath cwd k (dfsManifests pat dirPath rest) <;> simp [optOr]
      · have hcomp : ¬(comp = some (specifierName k)) := fun hc => hcase ⟨hk, hc⟩
        rw [if_neg hcase, if_neg (by simpa using hcomp)]
        cases hlast : lastMatchPath cwd k (dfsManifests pat dirPath rest) <;> simp [optOr]
  | case3 dirPath name content rest st hp ih =>
    intro st' h k hk
    simp only [searchForComponent, if_neg hp] at h
    have hstep := ih st' h k hk
    simp only [dfsManifests, if_neg hp, List.nil_append]
    exact hstep
  | case4 dirPath name entries rest st ihin ihrest =>
    intro st' h k hk
    simp only [searchForComponent] at h
    cases hin : searchForComponent pat comps cwd (pathJoin dirPath name) entries st with
    | error e =>
      rw [hin] at h
      simp [Except.bind] at h
    | ok st1 =>
      rw [hin] at h
      simp only [Except.bind] at h
      have hrest := ihrest st1 st' h k hk
      have hentries := ihin st1 hin k hk
      simp only [dfsManifests, lastMatchPath_append]
      rw [hrest, hentries, optOr_assoc]

theorem pathResolve_isAbs (cwd : List Str) (p : FPath) :
    (pathResolve cwd p).isAbs = true := by
  by_cases h : p.isAbs <;> simp [pathResolve, h]

/-- A key outside the iterated request list is never touched by the scan. -/
theorem searchForComponent_not_requested (pat : Str → Bool) (comps : List Str)
    (cwd : List Str) (dirPath : FPath) (es : List FSEntry) (st : ScanState) :
    ∀ st', searchForComponent pat comps cwd dirPath es st = .ok st' →
      ∀ k, k ∉ comps → st'.componentMap k = st.componentMap k := by
  induction dirPath, es, st using searchForComponent.induct pat comps cwd with
  | case1 dirPath st =>
    intro st' h k hk
    simp only [searchForComponent] at h
    cases h
    rfl
  | case2 dirPath name content rest st hp ih =>
    intro st' h k hk
    simp only [searchForComponent, if_pos hp] at h
    cases content with
    | malformed => simp [readComponent, Except.bind] at h
    | nullDoc => simp [readComponent, Except.bind] at h
    | obj comp =>
      simp only [readComponent, Except.bind] at h
      have hstep := ih comp st' h k hk
      rw [hstep, matchLoop_componentMap]
      rw [if_neg (fun hc => hk hc.1)]
  | case3 dirPath name content rest st hp ih =>
    intro st' h k hk
    simp only [searchForComponent, if_neg hp] at h
    exact ih st' h k hk
  | case4 dirPath name entries rest st ihin ihrest =>
    intro st' h k hk
    simp only [searchForComponent] at h
    cases hin : searchForComponent pat comps cwd (pathJoin dirPath name) entries st with
    | error e =>
      rw [hin] at h
      simp [Except.bind] at h
    | ok st1 =>
      rw [hin] at h
      simp only [Except.bind] at h
      rw [ihrest st1 st' h k hk, ihin st1 hin k hk]

/-- Invariant of the traversal: a key holding a value after a successful
scan either held it before, or is one of the iterated request specifiers
and its value is the absolute resolved path of a depth-first visited
manifest declaring exactly the specifier's name part. -/
theorem searchForComponent_invariant (pat : Str → Bool) (comps : List Str)
    (cwd : List Str) (dirPath : FPath) (es : List FSEntry) (st : ScanState)
    (st' : ScanState) (hscan : searchForComponent pat comps cwd dirPath es st = .ok st')
    (k : Str) (p : FPath) (hmap : st'.componentMap k = some p) :
    st.componentMap k = some p ∨
      (k ∈ comps ∧ p.isAbs = true ∧
        ∃ f ∈ dfsManifests pat dirPath es,
          pathResolve cwd f.1 = p ∧ f.2 = Yaml.obj (some (specifierName k))) := by
  by_cases hk : k ∈ comps
  · have hl := searchForComponent_lookup pat comps cwd dirPath es st st' hscan k hk
    rw [hmap] at hl
    cases hlast : lastMatchPath cwd k (dfsManifests pat dirPath es) with
    | none =>
      rw [hlast] at hl
      simp only [optOr] at hl
      exact Or.inl hl.symm
    | some q =>
      rw [hlast] at hl
      simp only [optOr, Option.some.injEq] at hl
      subst hl
      right
      rw [lastMatchPath, Option.map_eq_some'] at hlast
      obtain ⟨f, hgl, hfq⟩ := hlast
      have hfmem : f ∈ ((dfsManifests pat dirPath es).filter
          (fun f => decide (f.2 = Yaml.obj (some (specifierName k))))) := by
        obtain ⟨hne, hfe⟩ := List.mem_getLast?_eq_getLast
          (l := (dfsManifests pat dirPath es).filter
            (fun f => decide (f.2 = Yaml.obj (some (specifierName k))))) (x := f)
          (by simp [hgl, Option.mem_def])
        rw [hfe]
        exact List.getLast_mem hne
      have hfilter := List.mem_filter.mp hfmem
      refine ⟨hk, ?_, f, hfilter.1, hfq, by simpa using hfilter.2⟩
      rw [← hfq]
      exact pathResolve_isAbs cwd f.1
  · have hsame := searchForComponent_not_requested pat comps cwd dirPath es st st' hscan k hk
    rw [hsame] at hmap
    exact Or.inl hmap

theorem matchLoop_none (resolved : FPath) :
    ∀ (comps : List Str) (st : ScanState), matchLoop resolved none comps st = st := by
  intro comps
  induction comps with
  | nil => intro st; simp [matchLoop]
  | cons needed rest ih => intro st; simp [matchLoop, ih]

/-- A matching manifest file whose parsed mapping has no string
`component` field contributes nothing: the traversal continues as if the
file were not listed, with no error. -/
theorem searchForComponent_skips_componentless (pat : Str → Bool) (comps : List Str)
    (cwd : List Str) (dirPath : FPath) (name : Str) (rest : List FSEntry) (st : ScanState)
    (hp : pat name = true) :
    searchForComponent pat comps cwd dirPath (FSEntry.file name (Yaml.obj none) :: rest) st =
      searchForComponent pat comps cwd dirPath rest st := by
  simp only [searchForComponent, if_pos hp, readComponent, Except.bind, matchLoop_none]

/-- A matching manifest file with malformed content, or one whose
content parses to `null`, aborts the whole traversal at once with the
parse error — the rest of the entries are never visited. -/
theorem searchForComponent_aborts_on_bad_file (pat : Str → Bool) (comps : List Str)
    (cwd : List Str) (dirPath : FPath) (name : Str) (rest : List FSEntry) (st : ScanState)
    (hp : pat name = true) :
    searchForComponent pat comps cwd dirPath (FSEntry.file name Yaml.malformed :: rest) st =
        .error yamlParseErrorMsg ∧
      searchForComponent pat comps cwd dirPath (FSEntry.file name Yaml.nullDoc :: rest) st =
        .error nullComponentErrorMsg := by
  constructor <;> simp [searchForComponent, if_pos hp, readComponent, Except.bind]

/-- Every error the traversal can produce is one of the two parse-error
messages. -/
theorem searchForComponent_error_msgs (pat : Str → Bool) (comps : List Str) (cwd : List Str)
    (dirPath : FPath) (es : List FSEntry) (st : ScanState) :
    ∀ e, searchForComponent pat comps cwd dirPath es st = .error e →
      e = yamlParseErrorMsg ∨ e = nullComponentErrorMsg := by
  induction dirPath, es, st using searchForComponent.induct pat comps cwd with
  | case1 dirPath st =>
    intro e h
    simp [searchForComponent] at h
  | case2 dirPath name content rest st hp ih =>
    intro e h
    simp only [searchForComponent, if_pos hp] at h
    cases content with
    | malformed =>
      simp only [readComponent, Except.bind, Except.error.injEq] at h
      exact Or.inl h.symm
    | nullDoc =>
      simp only [readComponent, Except.bind, Except.error.injEq] at h
      exact Or.inr h.symm
    | obj comp =>
      simp only [readComponent, Except.bind] at h
      exact ih comp e h
  | case3 dirPath name content rest st hp ih =>
    intro e h
    simp only [searchForComponent, if_neg hp] at h
    exact ih e h
  | case4 dirPath name entries rest st ihin ihrest =>
    intro e h
    simp only [searchForComponent] at h
    cases hin : searchForComponent pat comps cwd (pathJoin dirPath name) entries st with
    | error e0 =>
      rw [hin] at h
      simp only [Except.bind, Except.error.injEq] at h
      subst h
      exact ihin e0 hin
    | ok st1 =>
      rw [hin] at h
      simp only [Except.bind] at h
      exact ihrest st1 e h

/-! ## The run pipeline -/

def inputRequiredMsg : Str := String.toList "Input required and not supplied: components"

def noComponentsMsg : Str := String.toList "No components provided to search for."

def noValidComponentsMsg : Str := String.toList "No valid components provided to search for."

def noRepositoryPathMsg : Str := String.toList "No repository path found."

def componentNotFoundMsg (name : Str) : Str :=
  String.toList "Component " ++ name ++ String.toList " not found"

def dirNotExistMsg (p : FPath) : Str :=
  String.toList "Directory " ++ renderFPath p ++ String.toList " does not exist"

/-- The outcome of the roots loop: a propagated error or the final
state, plus the missing-directory warnings and the roots the scanner was
invoked on, in order. -/
structure RootsResult where
  err : Option Str
  state : ScanState
  warnings : List Str
  visited : List FPath

/-- The `for (const searchDir of componentSearchDirectories)` loop.
`fs` gives a root directory's entries, `none` when it does not exist
(`fs.existsSync` is false); a missing root is warned about and skipped,
an error from one root's traversal aborts the loop. -/
def scanRoots (pat : Str → Bool) (comps : List Str) (cwd : List Str)
    (fs : FPath → Option (List FSEntry)) :
    List FPath → ScanState → List Str → List FPath → RootsResult
  | [], st, ws, vis => ⟨none, st, ws, vis⟩
  | r :: rest, st, ws, vis =>
    match fs r with
    | none => scanRoots pat comps cwd fs rest st (ws ++ [dirNotExistMsg r]) (vis ++ [r])
    | some entries =>
      match searchForComponent pat comps cwd r entries st with
      | .error e => ⟨some e, st, ws, vis ++ [r]⟩
      | .ok st1 => scanRoots pat comps cwd fs rest st1 ws (vis ++ [r])

/-- What a `run` leaves observable: the `core.setFailed` message if any,
the final `componentMap`, the `core.warning` lines, the `core.error`
diagnostics, and the roots the scanner was invoked on. -/
structure RunResult where
  failed : Option Str
  componentMap : Str → Option FPath
  warnings : List Str
  errors : List Str
  visitedRoots : List FPath

/-- A run that ends in `core.setFailed` before any scanning. -/
def failResult (msg : Str) : RunResult :=
  ⟨some msg, fun _ => none, [], [], []⟩

namespace Main

/-- `^component\.ya?ml$` — the `main.ts` variant's default manifest
filename pattern; it matches exactly the two literal base names. -/
def defaultComponentFileNameRegex (name : Str) : Bool :=
  name = String.toList "component.yml" || name = String.toList "component.yaml"

/-- The source text of that pattern, handed to `new RegExp` when the
configuration value is empty. -/
def defaultComponentFileNameRegexSource : Str := String.toList "^component\\.ya?ml$"

/-- Lines 70-73 of `main.ts`: the predicate is compiled from the
`component-file-name-regex` configuration value when that is nonempty,
and from the default pattern's source otherwise. `compile` stands for
the `RegExp` engine (pattern source to filename test). -/
def componentFileNameRegexOf (compile : Str → Str → Bool) (regexInput : Str) : Str → Bool :=
  compile (if jsTrim regexInput = [] then defaultComponentFileNameRegexSource
    else jsTrim regexInput)

/-- The `main.ts` variant's `run`, to its observable outcome. `compile`
models `new RegExp`; `cwd` is `process.cwd()`; `fs` gives a directory's
entries (`none` when it does not exist). The supplied search directories
are used as given — this variant does not resolve them; the matching
loop iterates the RAW `components` list; the final warning loop compares
the name parts of `components` against `components` itself. -/
def run (compile : Str → Str → Bool) (cwd : List Str) (fs : FPath → Option (List FSEntry))
    (componentsInput searchDirsInput regexInput : Str) : RunResult :=
  if componentsInput = [] then failResult inputRequiredMsg
  else
    let components := (jsSplit ',' (jsTrim componentsInput)).map jsTrim
    let componentSearchDirectories := (jsSplit ',' (jsTrim searchDirsInput)).map jsTrim
    if components.length = 0 then failResult noComponentsMsg
    else
      let validated := validateComponents components
      if validated.1.length = 0 then
        { failed := some noValidComponentsMsg, componentMap := fun _ => none,
          warnings := [], errors := validated.2, visitedRoots := [] }
      else
        let pat := componentFileNameRegexOf compile regexInput
        let roots := if componentSearchDirectories.length = 0 then
            componentSearchDirectories.map parseFPath ++ [⟨true, cwd⟩]
          else componentSearchDirectories.map parseFPath
        let res := scanRoots pat components cwd fs roots initialScanState [] []
        match res.err with
        | some e =>
          { failed := some e, componentMap := fun _ => none,
            warnings := res.warnings, errors := validated.2, visitedRoots := res.visited }
        | none =>
          { failed := none, componentMap := res.state.componentMap,
            warnings := res.warnings ++
              ((components.map specifierName).filter
                (fun n => !components.contains n)).map componentNotFoundMsg,
            errors := validated.2, visitedRoots := res.visited }

end Main

namespace Part0

/-- `^\.component\.ya?ml$` — the dotfile variant's pattern; its `run`
applies it directly, consulting no configuration. -/
def defaultComponentFileNameRegex (name : Str) : Bool :=
  name = String.toList ".component.yml" || name = String.toList ".component.yaml"

/-- The dotfile variant's `run`. `env` is
`process.env.GITHUB_WORKSPACE`; `regexInput` is the
`component-file-name-regex` configuration value the host makes
available, which this variant's code never reads (the argument is
unused). The source's two `filter(Boolean)` calls discard their results
and so have no observable effect to model. The matching loop iterates
the normalized `newComponents` list; the final warning loop compares the
name parts of `newComponents` against `newComponents` itself. -/
def run (cwd : List Str) (fs : FPath → Option (List FSEntry)) (env : Option Str)
    (componentsInput searchDirsInput regexInput : Str) : RunResult :=
  if componentsInput = [] then failResult inputRequiredMsg
  else
    let components := (jsSplit ',' (jsTrim componentsInput)).map jsTrim
    let componentSearchDirectories := (jsSplit ',' (jsTrim searchDirsInput)).map jsTrim
    if components.length = 0 then failResult noComponentsMsg
    else
      match env with
      | none => failResult noRepositoryPathMsg
      | some repositoryPath =>
        let dirs0 := componentSearchDirectories.map parseFPath
        let dirs := if dirs0.length > 0 then
            dirs0.map (fun d =>
              if d.isAbs then d else pathResolve2 cwd (parseFPath repositoryPath) d)
          else dirs0
        let validated := validateComponents components
        if validated.1.length = 0 then
          { failed := some noValidComponentsMsg, componentMap := fun _ => none,
            warnings := [], errors := validated.2, visitedRoots := [] }
        else
          let roots := if dirs.length = 0 then dirs ++ [⟨true, cwd⟩] else dirs
          let res := scanRoots defaultComponentFileNameRegex validated.1 cwd fs roots
            initialScanState [] []
          match res.err with
          | some e =>
            { failed := some e, componentMap := fun _ => none,
              warnings := res.warnings, errors := validated.2, visitedRoots := res.visited }
          | none =>
            { failed := none, componentMap := res.state.componentMap,
              warnings := res.warnings ++
                ((validated.1.map specifierName).filter
                  (fun n => !validated.1.contains n)).map componentNotFoundMsg,
              errors := validated.2, visitedRoots := res.visited }

end Part0

/-! ## Concrete fixtures for the claim theorems -/

/-- A model of `new RegExp(...).test`: the default pattern source of
`main.ts` compiles to its literal-name predicate, everything else to a
predicate that matches nothing. -/
def regexEngineModel (pat : Str) : Str → Bool :=
  if pat = Main.defaultComponentFileNameRegexSource then Main.defaultComponentFileNameRegex
  else fun _ => false

def cwd0 : List Str := [String.toList "home"]

def rootR : FPath := ⟨true, [String.toList "r"]⟩

def relRoot : FPath := ⟨false, [String.toList "rel"]⟩

def fsEmptyRoot : FPath → Option (List FSEntry) :=
  fun p => if p = rootR then some [] else none

def alphaDotManifest : FSEntry :=
  .file (String.toList ".component.yml") (.obj (some (String.toList "alpha")))

def fsAlphaDot : FPath → Option (List FSEntry) :=
  fun p => if p = rootR then some [alphaDotManifest] else none

def fooMainManifest : FSEntry :=
  .file (String.toList "component.yml") (.obj (some (String.toList "foo")))

def fooDotManifest : FSEntry :=
  .file (String.toList ".component.yml") (.obj (some (String.toList "foo")))

def fsFooMain : FPath → Option (List FSEntry) :=
  fun p => if p = rootR then some [fooMainManifest] else none

def fsFooBoth : FPath → Option (List FSEntry) :=
  fun p => if p = rootR then some [fooMainManifest, fooDotManifest] else none

def fooNoFieldManifest : FSEntry := .file (String.toList "component.yml") (.obj none)

def fsFooNoField : FPath → Option (List FSEntry) :=
  fun p => if p = rootR then some [fooNoFieldManifest] else none

def fsRel : FPath → Option (List FSEntry) :=
  fun p => if p = relRoot then some [] else none

def fooLatest : Str := String.toList "foo:latest"

/-- Two manifests declaring `foo`, in sibling directories `a` then `b`. -/
def twoManifestTree : List FSEntry :=
  [.dir (String.toList "a") [fooDotManifest], .dir (String.toList "b") [fooDotManifest]]

/-- The map a traversal outcome leaves observable at a key: the final
state's entry on success, nothing on a propagated error. -/
def scanResultMap (r : Except Str ScanState) (k : Str) : Option FPath :=
  match r with
  | .ok st => st.componentMap k
  | .error _ => none

/-! ## Claim theorems -/

/-- C5: for every token list, `newComponents` is exactly the
order-preserving, duplicate-preserving image of the tokens that pass the
validation pattern — a colon token normalized as `name:version` split on
the first colon, a colonless token as `token:latest` — and every failing
token is dropped with one diagnostic, without aborting the batch. -/
theorem claimC5_normalization (tokens : List Str) :
    (validateComponents tokens).1 = tokens.filterMap specNormalizeToken ∧
    (validateComponents tokens).2 =
      (tokens.filter (fun t => !validComponentRegex t)).map invalidComponentMsg :=
  validateComponents_eq_spec tokens

/-- C4 (amended): a matching manifest whose content is malformed, or
parses to `null`, aborts the traversal at that first file with the parse
error, the remaining entries unvisited — but a parsed mapping simply
lacking a `component` field is skipped silently, not an error. -/
theorem claimC4_parse_failure_policy (pat : Str → Bool) (comps : List Str)
    (cwd : List Str) (dirPath : FPath) (name : Str) (rest : List FSEntry)
    (st : ScanState) (hp : pat name = true) :
    searchForComponent pat comps cwd dirPath (FSEntry.file name Yaml.malformed :: rest) st =
        .error yamlParseErrorMsg ∧
      searchForComponent pat comps cwd dirPath (FSEntry.file name Yaml.nullDoc :: rest) st =
        .error nullComponentErrorMsg ∧
      searchForComponent pat comps cwd dirPath (FSEntry.file name (Yaml.obj none) :: rest) st =
        searchForComponent pat comps cwd dirPath rest st :=
  ⟨(searchForComponent_aborts_on_bad_file pat comps cwd dirPath name rest st hp).1,
    (searchForComponent_aborts_on_bad_file pat comps cwd dirPath name rest st hp).2,
    searchForComponent_skips_componentless pat comps cwd dirPath name rest st hp⟩

/-- C4 witness: the amended policy at a concrete matching file name. -/
theorem claimC4_parse_failure_policy_witness :
    Main.defaultComponentFileNameRegex (String.toList "component.yml") = true ∧
      (searchForComponent Main.defaultComponentFileNameRegex [fooLatest] cwd0 rootR
          [FSEntry.file (String.toList "component.yml") Yaml.malformed] initialScanState =
        .error yamlParseErrorMsg ∧
      searchForComponent Main.defaultComponentFileNameRegex [fooLatest] cwd0 rootR
          [FSEntry.file (String.toList "component.yml") Yaml.nullDoc] initialScanState =
        .error nullComponentErrorMsg ∧
      searchForComponent Main.defaultComponentFileNameRegex [fooLatest] cwd0 rootR
          [FSEntry.file (String.toList "component.yml") (Yaml.obj none)] initialScanState =
        searchForComponent Main.defaultComponentFileNameRegex [fooLatest] cwd0 rootR
          [] initialScanState) :=
  ⟨by decide,
    claimC4_parse_failure_policy Main.defaultComponentFileNameRegex [fooLatest] cwd0 rootR
      (String.toList "component.yml") [] initialScanState (by decide)⟩

/-- C4 counterexample: a run over one manifest file that matches the
filename pattern but has no `component` field ends with no terminal
error at all — the claim's "aborts with a run-level error" is false for
the missing-field case. -/
theorem claimC4_componentless_no_abort_cex :
    (Main.run regexEngineModel cwd0 fsFooNoField (String.toList "foo")
        (String.toList "/r") []).failed = none ∧
      regexEngineModel Main.defaultComponentFileNameRegexSource
        (String.toList "component.yml") = true := by
  constructor
  · simp [Main.run, Main.componentFileNameRegexOf, regexEngineModel, cwd0, fsFooNoField,
      fooNoFieldManifest, rootR, jsTrim, jsSplit, isJsWhitespace, validateComponents,
      validComponentRegex, isComponentChar, latestSuffix, parseFPath, scanRoots,
      searchForComponent, readComponent, Except.bind, matchLoop, initialScanState,
      specifierName, failResult, Main.defaultComponentFileNameRegex,
      Main.defaultComponentFileNameRegexSource]
  · decide

/-- C7: after a successful scan from the empty state, the entry recorded
for a requested specifier is the resolved path of the LAST manifest in
depth-first order whose `component` equals the specifier's name — every
later match overwrites the earlier one. -/
theorem claimC7_last_write_wins (pat : Str → Bool) (comps : List Str) (cwd : List Str)
    (dirPath : FPath) (es : List FSEntry) (k : Str) (hk : k ∈ comps)
    (hok : scanOk (searchForComponent pat comps cwd dirPath es initialScanState) = true) :
    scanResultMap (searchForComponent pat comps cwd dirPath es initialScanState) k =
      lastMatchPath cwd k (dfsManifests pat dirPath es) := by
  cases hsc : searchForComponent pat comps cwd dirPath es initialScanState with
  | error e =>
    rw [hsc] at hok
    simp [scanOk] at hok
  | ok st' =>
    have hl := searchForComponent_lookup pat comps cwd dirPath es initialScanState st' hsc k hk
    simp only [scanResultMap]
    rw [hl]
    simp only [initialScanState]
    cases lastMatchPath cwd k (dfsManifests pat dirPath es) <;> simp [optOr]

/-! ## Step equations for evaluating concrete scans -/

theorem searchForComponent_nil (pat : Str → Bool) (comps cwd : List Str)
    (dirPath : FPath) (st : ScanState) :
    searchForComponent pat comps cwd dirPath [] st = .ok st := by
  simp [searchForComponent]

theorem searchForComponent_file_obj (pat : Str → Bool) (comps cwd : List Str)
    (dirPath : FPath) (name : Str) (c : Option Str) (rest : List FSEntry) (st : ScanState)
    (hp : pat name = true) :
    searchForComponent pat comps cwd dirPath (FSEntry.file name (Yaml.obj c) :: rest) st =
      searchForComponent pat comps cwd dirPath rest
        (matchLoop (pathResolve cwd (pathJoin dirPath name)) c comps st) := by
  simp only [searchForComponent, if_pos hp, readComponent, Except.bind]

theorem searchForComponent_file_skip (pat : Str → Bool) (comps cwd : List Str)
    (dirPath : FPath) (name : Str) (content : Yaml) (rest : List FSEntry) (st : ScanState)
    (hp : pat name = false) :
    searchForComponent pat comps cwd dirPath (FSEntry.file name content :: rest) st =
      searchForComponent pat comps cwd dirPath rest st := by
  simp only [searchForComponent, hp, Bool.false_eq_true, if_false]

theorem searchForComponent_dir_ok (pat : Str → Bool) (comps cwd : List Str)
    (dirPath : FPath) (name : Str) (entries rest : List FSEntry) (st st1 : ScanState)
    (hin : searchForComponent pat comps cwd (pathJoin dirPath name) entries st = .ok st1) :
    searchForComponent pat comps cwd dirPath (FSEntry.dir name entries :: rest) st =
      searchForComponent pat comps cwd dirPath rest st1 := by
  simp only [searchForComponent, hin, Except.bind]

theorem searchForComponent_dir_err (pat : Str → Bool) (comps cwd : List Str)
    (dirPath : FPath) (name : Str) (entries rest : List FSEntry) (st : ScanState) (e : Str)
    (hin : searchForComponent pat comps cwd (pathJoin dirPath name) entries st = .error e) :
    searchForComponent pat comps cwd dirPath (FSEntry.dir name entries :: rest) st =
      .error e := by
  simp only [searchForComponent, hin, Except.bind]

theorem scanRoots_nil (pat : Str → Bool) (comps cwd : List Str)
    (fs : FPath → Option (List FSEntry)) (st : ScanState) (ws : List Str) (vis : List FPath) :
    scanRoots pat comps cwd fs [] st ws vis = ⟨none, st, ws, vis⟩ := by
  simp [scanRoots]

theorem scanRoots_missing (pat : Str → Bool) (comps cwd : List Str)
    (fs : FPath → Option (List FSEntry)) (r : FPath) (rest : List FPath)
    (st : ScanState) (ws : List Str) (vis : List FPath) (hfs : fs r = none) :
    scanRoots pat comps cwd fs (r :: rest) st ws vis =
      scanRoots pat comps cwd fs rest st (ws ++ [dirNotExistMsg r]) (vis ++ [r]) := by
  simp only [scanRoots, hfs]

theorem scanRoots_found_ok (pat : Str → Bool) (comps cwd : List Str)
    (fs : FPath → Option (List FSEntry)) (r : FPath) (entries : List FSEntry)
    (rest : List FPath) (st st1 : ScanState) (ws : List Str) (vis : List FPath)
    (hfs : fs r = some entries)
    (hsc : searchForComponent pat comps cwd r entries st = .ok st1) :
    scanRoots pat comps cwd fs (r :: rest) st ws vis =
      scanRoots pat comps cwd fs rest st1 ws (vis ++ [r]) := by
  simp only [scanRoots, hfs, hsc]

theorem scanRoots_found_err (pat : Str → Bool) (comps cwd : List Str)
    (fs : FPath → Option (List FSEntry)) (r : FPath) (entries : List FSEntry)
    (rest : List FPath) (st : ScanState) (ws : List Str) (vis : List FPath) (e : Str)
    (hfs : fs r = some entries)
    (hsc : searchForComponent pat comps cwd r entries st = .error e) :
    scanRoots pat comps cwd fs (r :: rest) st ws vis = ⟨some e, st, ws, vis ++ [r]⟩ := by
  simp only [scanRoots, hfs, hsc]

theorem components_ne_nil (ci : Str) : (jsSplit ',' (jsTrim ci)).map jsTrim ≠ [] := by
  intro h
  exact jsSplit_ne_nil ',' (jsTrim ci) (List.map_eq_nil_iff.mp h)

/-- Unfolds a `Main.run` that reaches the scan and whose scan succeeds. -/
theorem main_run_scan_eq (compile : Str → Str → Bool) (cwd : List Str)
    (fs : FPath → Option (List FSEntry)) (ci si ri : Str)
    (comps dirs valid errs : List Str) (res : RootsResult)
    (hci : ¬ci = [])
    (hcomps : (jsSplit ',' (jsTrim ci)).map jsTrim = comps)
    (hdirs : (jsSplit ',' (jsTrim si)).map jsTrim = dirs)
    (hdne : ¬dirs = [])
    (hval : validateComponents comps = (valid, errs))
    (hvne : ¬valid = [])
    (hres : scanRoots (Main.componentFileNameRegexOf compile ri) comps cwd fs
      (dirs.map parseFPath) initialScanState [] [] = res)
    (hok : res.err = none) :
    Main.run compile cwd fs ci si ri =
      { failed := none, componentMap := res.state.componentMap,
        warnings := res.warnings ++
          ((comps.map specifierName).filter
            (fun n => !comps.contains n)).map componentNotFoundMsg,
        errors := errs, visitedRoots := res.visited } := by
  obtain ⟨err, state, ws, vis⟩ := res
  simp only at hok
  subst hok
  have hcne : ¬comps = [] := fun h => components_ne_nil ci (hcomps.trans h)
  simp only [Main.run, hcomps, hdirs, hval, if_neg hci]
  rw [if_neg (by simpa [List.length_eq_zero] using hcne)]
  rw [if_neg (by simpa [List.length_eq_zero] using hvne)]
  rw [if_neg (by simpa [List.length_eq_zero] using hdne)]
  rw [hres]

/-- Unfolds a `Part0.run` that reaches the scan and whose scan succeeds. -/
theorem part0_run_scan_eq (cwd : List Str) (fs : FPath → Option (List FSEntry))
    (repo : Str) (ci si ri : Str)
    (comps dirs valid errs : List Str) (roots : List FPath) (res : RootsResult)
    (hci : ¬ci = [])
    (hcomps : (jsSplit ',' (jsTrim ci)).map jsTrim = comps)
    (hdirs : (jsSplit ',' (jsTrim si)).map jsTrim = dirs)
    (hdne : ¬dirs = [])
    (hval : validateComponents comps = (valid, errs))
    (hvne : ¬valid = [])
    (hroots : (dirs.map parseFPath).map
      (fun d => if d.isAbs then d else pathResolve2 cwd (parseFPath repo) d) = roots)
    (hrne : ¬roots = [])
    (hres : scanRoots Part0.defaultComponentFileNameRegex valid cwd fs
      roots initialScanState [] [] = res)
    (hok : res.err = none) :
    Part0.run cwd fs (some repo) ci si ri =
      { failed := none, componentMap := res.state.componentMap,
        warnings := res.warnings ++
          ((valid.map specifierName).filter
            (fun n => !valid.contains n)).map componentNotFoundMsg,
        errors := errs, visitedRoots := res.visited } := by
  obtain ⟨err, state, ws, vis⟩ := res
  simp only at hok
  subst hok
  have hcne : ¬comps = [] := fun h => components_ne_nil ci (hcomps.trans h)
  have hdlen : 0 < (dirs.map parseFPath).length := by
    simp only [List.length_map]
    exact Nat.pos_of_ne_zero (by simpa [List.length_eq_zero] using hdne)
  simp only [Part0.run, hcomps, hdirs, hval, if_neg hci]
  rw [if_neg (by simpa [List.length_eq_zero] using hcne)]
  rw [if_pos hdlen, hroots]
  rw [if_neg (by simpa [List.length_eq_zero] using hvne)]
  rw [if_neg (by simpa [List.length_eq_zero] using hrne), hres]

/-- Unfolds a `Main.run` whose specifier set is empty after validation. -/
theorem main_run_no_valid_eq (compile : Str → Str → Bool) (cwd : List Str)
    (fs : FPath → Option (List FSEntry)) (ci si ri : Str)
    (hci : ¬ci = [])
    (hval : (validateComponents ((jsSplit ',' (jsTrim ci)).map jsTrim)).1 = []) :
    Main.run compile cwd fs ci si ri =
      { failed := some noValidComponentsMsg, componentMap := fun _ => none,
        warnings := [],
        errors := (validateComponents ((jsSplit ',' (jsTrim ci)).map jsTrim)).2,
        visitedRoots := [] } := by
  have hcne : ¬(jsSplit ',' (jsTrim ci)).map jsTrim = [] := components_ne_nil ci
  simp only [Main.run, if_neg hci]
  rw [if_neg (by simpa [List.length_eq_zero] using hcne)]
  rw [if_pos (by simpa [List.length_eq_zero] using hval)]

/-- Unfolds a `Part0.run` whose specifier set is empty after validation. -/
theorem part0_run_no_valid_eq (cwd : List Str) (fs : FPath → Option (List FSEntry))
    (repo : Str) (ci si ri : Str)
    (hci : ¬ci = [])
    (hval : (validateComponents ((jsSplit ',' (jsTrim ci)).map jsTrim)).1 = []) :
    Part0.run cwd fs (some repo) ci si ri =
      { failed := some noValidComponentsMsg, componentMap := fun _ => none,
        warnings := [],
        errors := (validateComponents ((jsSplit ',' (jsTrim ci)).map jsTrim)).2,
        visitedRoots := [] } := by
  have hcne : ¬(jsSplit ',' (jsTrim ci)).map jsTrim = [] := components_ne_nil ci
  simp only [Part0.run, if_neg hci]
  rw [if_neg (by simpa [List.length_eq_zero] using hcne)]
  rw [if_pos (by simpa [List.length_eq_zero] using hval)]

/-- C1 (code evaluated at the failing inputs): the post-scan warning
loop checks the request list against itself, not against what was
matched. In the `main.ts` variant a request `alpha` matched by NO
manifest produces no warning at all; in the dotfile variant a request
`alpha` that WAS matched (its path is recorded) is still warned about.
Both contradict the claim. -/
theorem claimC1_notfound_warning_defect :
    ((Main.run regexEngineModel cwd0 fsEmptyRoot (String.toList "alpha")
        (String.toList "/r") []).componentMap (String.toList "alpha") = none ∧
      (Main.run regexEngineModel cwd0 fsEmptyRoot (String.toList "alpha")
        (String.toList "/r") []).componentMap (String.toList "alpha:latest") = none ∧
      (Main.run regexEngineModel cwd0 fsEmptyRoot (String.toList "alpha")
        (String.toList "/r") []).failed = none ∧
      (Main.run regexEngineModel cwd0 fsEmptyRoot (String.toList "alpha")
        (String.toList "/r") []).warnings = []) ∧
    ((Part0.run cwd0 fsAlphaDot (some (String.toList "/repo")) (String.toList "alpha")
        (String.toList "/r") []).componentMap (String.toList "alpha:latest") =
        some ⟨true, [String.toList "r", String.toList ".component.yml"]⟩ ∧
      (Part0.run cwd0 fsAlphaDot (some (String.toList "/repo")) (String.toList "alpha")
        (String.toList "/r") []).warnings =
        [componentNotFoundMsg (String.toList "alpha")]) := by
  have hresM : scanRoots (Main.componentFileNameRegexOf regexEngineModel [])
      [String.toList "alpha"] cwd0 fsEmptyRoot
      ([String.toList "/r"].map parseFPath) initialScanState [] [] =
      ⟨none, initialScanState, [], [rootR]⟩ := by
    rw [show [String.toList "/r"].map parseFPath = [rootR] from by decide]
    rw [scanRoots_found_ok _ _ _ _ _ _ _ _ _ _ _
      (show fsEmptyRoot rootR = some [] from rfl) (searchForComponent_nil _ _ _ _ _)]
    exact scanRoots_nil _ _ _ _ _ _ _
  have hmain := main_run_scan_eq regexEngineModel cwd0 fsEmptyRoot (String.toList "alpha")
    (String.toList "/r") [] [String.toList "alpha"] [String.toList "/r"]
    [String.toList "alpha:latest"] [] ⟨none, initialScanState, [], [rootR]⟩
    (by decide) (by decide) (by decide) (by decide) (by decide) (by decide) hresM rfl
  have hscanP : searchForComponent Part0.defaultComponentFileNameRegex
      [String.toList "alpha:latest"] cwd0 rootR [alphaDotManifest] initialScanState =
      .ok (matchLoop (pathResolve cwd0 (pathJoin rootR (String.toList ".component.yml")))
        (some (String.toList "alpha")) [String.toList "alpha:latest"] initialScanState) := by
    rw [show alphaDotManifest = FSEntry.file (String.toList ".component.yml")
      (Yaml.obj (some (String.toList "alpha"))) from rfl]
    rw [searchForComponent_file_obj _ _ _ _ _ _ _ _ (by decide)]
    exact searchForComponent_nil _ _ _ _ _
  have hresP : scanRoots Part0.defaultComponentFileNameRegex
      [String.toList "alpha:latest"] cwd0 fsAlphaDot [rootR] initialScanState [] [] =
      ⟨none, matchLoop (pathResolve cwd0 (pathJoin rootR (String.toList ".component.yml")))
        (some (String.toList "alpha")) [String.toList "alpha:latest"] initialScanState,
        [], [rootR]⟩ := by
    rw [scanRoots_found_ok _ _ _ _ _ _ _ _ _ _ _
      (show fsAlphaDot rootR = some [alphaDotManifest] from rfl) hscanP]
    exact scanRoots_nil _ _ _ _ _ _ _
  have hpart := part0_run_scan_eq cwd0 fsAlphaDot (String.toList "/repo")
    (String.toList "alpha") (String.toList "/r") [] [String.toList "alpha"]
    [String.toList "/r"] [String.toList "alpha:latest"] [] [rootR]
    ⟨none, matchLoop (pathResolve cwd0 (pathJoin rootR (String.toList ".component.yml")))
      (some (String.toList "alpha")) [String.toList "alpha:latest"] initialScanState,
      [], [rootR]⟩
    (by decide) (by decide) (by decide) (by decide) (by decide) (by decide) (by decide)
    (by decide) hresP rfl
  refine ⟨⟨?_, ?_, ?_, ?_⟩, ?_, ?_⟩
  · rw [hmain]; decide
  · rw [hmain]; decide
  · rw [hmain]
  · rw [hmain]; decide
  · rw [hpart]; decide
  · rw [hpart]; decide

def fsFooDot : FPath → Option (List FSEntry) :=
  fun p => if p = rootR then some [fooDotManifest] else none

/-- C2 (code evaluated at the failing input): the `main.ts` variant's
matching loop iterates the RAW `components` list, so a versionless
request `foo` is keyed by the raw token `foo`, not by the canonical
`foo:latest` the normalizer produced; the dotfile variant iterates the
normalized list and produces the canonical key. -/
theorem claimC2_raw_token_keys :
    ((Main.run regexEngineModel cwd0 fsFooMain (String.toList "foo")
        (String.toList "/r") []).componentMap (String.toList "foo") =
        some ⟨true, [String.toList "r", String.toList "component.yml"]⟩ ∧
      (Main.run regexEngineModel cwd0 fsFooMain (String.toList "foo")
        (String.toList "/r") []).componentMap (String.toList "foo:latest") = none) ∧
    (Part0.run cwd0 fsFooDot (some (String.toList "/repo")) (String.toList "foo")
        (String.toList "/r") []).componentMap (String.toList "foo:latest") =
      some ⟨true, [String.toList "r", String.toList ".component.yml"]⟩ := by
  have hscanM : searchForComponent (Main.componentFileNameRegexOf regexEngineModel [])
      [String.toList "foo"] cwd0 rootR [fooMainManifest] initialScanState =
      .ok (matchLoop (pathResolve cwd0 (pathJoin rootR (String.toList "component.yml")))
        (some (String.toList "foo")) [String.toList "foo"] initialScanState) := by
    rw [show fooMainManifest = FSEntry.file (String.toList "component.yml")
      (Yaml.obj (some (String.toList "foo"))) from rfl]
    rw [searchForComponent_file_obj _ _ _ _ _ _ _ _ (by decide)]
    exact searchForComponent_nil _ _ _ _ _
  have hresM : scanRoots (Main.componentFileNameRegexOf regexEngineModel [])
      [String.toList "foo"] cwd0 fsFooMain
      ([String.toList "/r"].map parseFPath) initialScanState [] [] =
      ⟨none, matchLoop (pathResolve cwd0 (pathJoin rootR (String.toList "component.yml")))
        (some (String.toList "foo")) [String.toList "foo"] initialScanState, [], [rootR]⟩ := by
    rw [show [String.toList "/r"].map parseFPath = [rootR] from by decide]
    rw [scanRoots_found_ok _ _ _ _ _ _ _ _ _ _ _
      (show fsFooMain rootR = some [fooMainManifest] from rfl) hscanM]
    exact scanRoots_nil _ _ _ _ _ _ _
  have hmain := main_run_scan_eq regexEngineModel cwd0 fsFooMain (String.toList "foo")
    (String.toList "/r") [] [String.toList "foo"] [String.toList "/r"]
    [String.toList "foo:latest"] []
    ⟨none, matchLoop (pathResolve cwd0 (pathJoin rootR (String.toList "component.yml")))
      (some (String.toList "foo")) [String.toList "foo"] initialScanState, [], [rootR]⟩
    (by decide) (by decide) (by decide) (by decide) (by decide) (by decide) hresM rfl
  have hscanP : searchForComponent Part0.defaultComponentFileNameRegex
      [String.toList "foo:latest"] cwd0 rootR [fooDotManifest] initialScanState =
      .ok (matchLoop (pathResolve cwd0 (pathJoin rootR (String.toList ".component.yml")))
        (some (String.toList "foo")) [String.toList "foo:latest"] initialScanState) := by
    rw [show fooDotManifest = FSEntry.file (String.toList ".component.yml")
      (Yaml.obj (some (String.toList "foo"))) from rfl]
    rw [searchForComponent_file_obj _ _ _ _ _ _ _ _ (by decide)]
    exact searchForComponent_nil _ _ _ _ _
  have hresP : scanRoots Part0.defaultComponentFileNameRegex
      [String.toList "foo:latest"] cwd0 fsFooDot [rootR] initialScanState [] [] =
      ⟨none, matchLoop (pathResolve cwd0 (pathJoin rootR (String.toList ".component.yml")))
        (some (String.toList "foo")) [String.toList "foo:latest"] initialScanState,
        [], [rootR]⟩ := by
    rw [scanRoots_found_ok _ _ _ _ _ _ _ _ _ _ _
      (show fsFooDot rootR = some [fooDotManifest] from rfl) hscanP]
    exact scanRoots_nil _ _ _ _ _ _ _
  have hpart := part0_run_scan_eq cwd0 fsFooDot (String.toList "/repo")
    (String.toList "foo") (String.toList "/r") [] [String.toList "foo"]
    [String.toList "/r"] [String.toList "foo:latest"] [] [rootR]
    ⟨none, matchLoop (pathResolve cwd0 (pathJoin rootR (String.toList ".component.yml")))
      (some (String.toList "foo")) [String.toList "foo:latest"] initialScanState,
      [], [rootR]⟩
    (by decide) (by decide) (by decide) (by decide) (by decide) (by decide) (by decide)
    (by decide) hresP rfl
  refine ⟨⟨?_, ?_⟩, ?_⟩
  · rw [hmain]; decide
  · rw [hmain]; decide
  · rw [hpart]; decide

/-- C3 counterexample: give the dotfile variant a
`component-file-name-regex` value (the non-dot pattern source, which its
engine compiles to a predicate accepting `component.yml` and rejecting
`.component.yml`). The claim then demands that `component.yml` be
treated as a manifest and `.component.yml` not; the code does exactly
the opposite, because this variant never reads the configuration. -/
theorem claimC3_part0_ignores_config_cex :
    regexEngineModel Main.defaultComponentFileNameRegexSource
        (String.toList "component.yml") = true ∧
      regexEngineModel Main.defaultComponentFileNameRegexSource
        (String.toList ".component.yml") = false ∧
      (Part0.run cwd0 fsFooMain (some (String.toList "/repo")) (String.toList "foo")
          (String.toList "/r") Main.defaultComponentFileNameRegexSource).componentMap
        (String.toList "foo:latest") = none ∧
      (Part0.run cwd0 fsFooMain (some (String.toList "/repo")) (String.toList "foo")
          (String.toList "/r") Main.defaultComponentFileNameRegexSource).failed = none ∧
      (Part0.run cwd0 fsFooDot (some (String.toList "/repo")) (String.toList "foo")
          (String.toList "/r") Main.defaultComponentFileNameRegexSource).componentMap
        (String.toList "foo:latest") =
        some ⟨true, [String.toList "r", String.toList ".component.yml"]⟩ := by
  have hscanSkip : searchForComponent Part0.defaultComponentFileNameRegex
      [String.toList "foo:latest"] cwd0 rootR [fooMainManifest] initialScanState =
      .ok initialScanState := by
    rw [show fooMainManifest = FSEntry.file (String.toList "component.yml")
      (Yaml.obj (some (String.toList "foo"))) from rfl]
    rw [searchForComponent_file_skip _ _ _ _ _ _ _ _ (by decide)]
    exact searchForComponent_nil _ _ _ _ _
  have hresSkip : scanRoots Part0.defaultComponentFileNameRegex
      [String.toList "foo:latest"] cwd0 fsFooMain [rootR] initialScanState [] [] =
      ⟨none, initialScanState, [], [rootR]⟩ := by
    rw [scanRoots_found_ok _ _ _ _ _ _ _ _ _ _ _
      (show fsFooMain rootR = some [fooMainManifest] from rfl) hscanSkip]
    exact scanRoots_nil _ _ _ _ _ _ _
  have hrunSkip := part0_run_scan_eq cwd0 fsFooMain (String.toList "/repo")
    (String.toList "foo") (String.toList "/r") Main.defaultComponentFileNameRegexSource
    [String.toList "foo"] [String.toList "/r"] [String.toList "foo:latest"] [] [rootR]
    ⟨none, initialScanState, [], [rootR]⟩
    (by decide) (by decide) (by decide) (by decide) (by decide) (by decide) (by decide)
    (by decide) hresSkip rfl
  have hscanDot : searchForComponent Part0.defaultComponentFileNameRegex
      [String.toList "foo:latest"] cwd0 rootR [fooDotManifest] initialScanState =
      .ok (matchLoop (pathResolve cwd0 (pathJoin rootR (String.toList ".component.yml")))
        (some (String.toList "foo")) [String.toList "foo:latest"] initialScanState) := by
    rw [show fooDotManifest = FSEntry.file (String.toList ".component.yml")
      (Yaml.obj (some (String.toList "foo"))) from rfl]
    rw [searchForComponent_file_obj _ _ _ _ _ _ _ _ (by decide)]
    exact searchForComponent_nil _ _ _ _ _
  have hresDot : scanRoots Part0.defaultComponentFileNameRegex
      [String.toList "foo:latest"] cwd0 fsFooDot [rootR] initialScanState [] [] =
      ⟨none, matchLoop (pathResolve cwd0 (pathJoin rootR (String.toList ".component.yml")))
        (some (String.toList "foo")) [String.toList "foo:latest"] initialScanState,
        [], [rootR]⟩ := by
    rw [scanRoots_found_ok _ _ _ _ _ _ _ _ _ _ _
      (show fsFooDot rootR = some [fooDotManifest] from rfl) hscanDot]
    exact scanRoots_nil _ _ _ _ _ _ _
  have hrunDot := part0_run_scan_eq cwd0 fsFooDot (String.toList "/repo")
    (String.toList "foo") (String.toList "/r") Main.defaultComponentFileNameRegexSource
    [String.toList "foo"] [String.toList "/r"] [String.toList "foo:latest"] [] [rootR]
    ⟨none, matchLoop (pathResolve cwd0 (pathJoin rootR (String.toList ".component.yml")))
      (some (String.toList "foo")) [String.toList "foo:latest"] initialScanState,
      [], [rootR]⟩
    (by decide) (by decide) (by decide) (by decide) (by decide) (by decide) (by decide)
    (by decide) hresDot rfl
  refine ⟨by decide, by decide, ?_, ?_, ?_⟩
  · rw [hrunSkip]; decide
  · rw [hrunSkip]
  · rw [hrunDot]; decide

/-- C3 (amended): in the `main.ts` variant the filename predicate is
compiled from the caller-supplied `component-file-name-regex` value
whenever that value is nonempty, and from the built-in
`^component\.ya?ml$` source only when it is absent; the dotfile variant
ignores the configuration entirely — its run is unchanged under any
supplied value and always applies the built-in `^\.component\.ya?ml$`
pattern. -/
theorem claimC3_filename_predicate :
    (∀ (compile : Str → Str → Bool) (ri : Str), ¬jsTrim ri = [] →
        Main.componentFileNameRegexOf compile ri = compile (jsTrim ri)) ∧
      (∀ compile : Str → Str → Bool,
        Main.componentFileNameRegexOf compile [] =
          compile Main.defaultComponentFileNameRegexSource) ∧
      (∀ (cwd : List Str) (fs : FPath → Option (List FSEntry)) (env : Option Str)
          (ci si r1 r2 : Str),
        Part0.run cwd fs env ci si r1 = Part0.run cwd fs env ci si r2) ∧
      Main.defaultComponentFileNameRegex (String.toList "component.yml") = true ∧
      Main.defaultComponentFileNameRegex (String.toList "component.yaml") = true ∧
      Main.defaultComponentFileNameRegex (String.toList ".component.yml") = false ∧
      Part0.defaultComponentFileNameRegex (String.toList ".component.yml") = true ∧
      Part0.defaultComponentFileNameRegex (String.toList ".component.yaml") = true ∧
      Part0.defaultComponentFileNameRegex (String.toList "component.yml") = false := by
  refine ⟨?_, ?_, ?_, by decide, by decide, by decide, by decide, by decide, by decide⟩
  · intro compile ri hri
    rw [Main.componentFileNameRegexOf, if_neg hri]
  · intro compile
    rfl
  · intro cwd fs env ci si r1 r2
    rfl

/-- C6: when no specifier survives validation — and the `components`
input itself is nonempty, so the host's required-input check passed (for
the dotfile variant a repository root must also be present, since that
check comes first) — both variants fail terminally with the
"No valid components provided to search for." message, visit no search
root, emit no warning, and record no mapping entry. -/
theorem claimC6_empty_requestset_fails (compile : Str → Str → Bool) (cwd : List Str)
    (fs : FPath → Option (List FSEntry)) (repo ci si ri : Str)
    (hci : ¬ci = [])
    (hval : (validateComponents ((jsSplit ',' (jsTrim ci)).map jsTrim)).1 = []) :
    Main.run compile cwd fs ci si ri =
      { failed := some noValidComponentsMsg, componentMap := fun _ => none,
        warnings := [],
        errors := (validateComponents ((jsSplit ',' (jsTrim ci)).map jsTrim)).2,
        visitedRoots := [] } ∧
    Part0.run cwd fs (some repo) ci si ri =
      { failed := some noValidComponentsMsg, componentMap := fun _ => none,
        warnings := [],
        errors := (validateComponents ((jsSplit ',' (jsTrim ci)).map jsTrim)).2,
        visitedRoots := [] } :=
  ⟨main_run_no_valid_eq compile cwd fs ci si ri hci hval,
    part0_run_no_valid_eq cwd fs repo ci si ri hci hval⟩

/-- C6 witness: the input `!!` fails the pattern, no specifier survives,
and both runs fail with the no-valid-components message without
scanning. -/
theorem claimC6_empty_requestset_fails_witness :
    (¬String.toList "!!" = []) ∧
      (validateComponents ((jsSplit ',' (jsTrim (String.toList "!!"))).map jsTrim)).1 = [] ∧
      Main.run regexEngineModel cwd0 fsEmptyRoot (String.toList "!!") [] [] =
        { failed := some noValidComponentsMsg, componentMap := fun _ => none,
          warnings := [],
          errors := (validateComponents
            ((jsSplit ',' (jsTrim (String.toList "!!"))).map jsTrim)).2,
          visitedRoots := [] } ∧
      Part0.run cwd0 fsEmptyRoot (some (String.toList "/repo")) (String.toList "!!") [] [] =
        { failed := some noValidComponentsMsg, componentMap := fun _ => none,
          warnings := [],
          errors := (validateComponents
            ((jsSplit ',' (jsTrim (String.toList "!!"))).map jsTrim)).2,
          visitedRoots := [] } :=
  ⟨by decide, by decide,
    (claimC6_empty_requestset_fails regexEngineModel cwd0 fsEmptyRoot
      (String.toList "/repo") (String.toList "!!") [] [] (by decide) (by decide)).1,
    (claimC6_empty_requestset_fails regexEngineModel cwd0 fsEmptyRoot
      (String.toList "/repo") (String.toList "!!") [] [] (by decide) (by decide)).2⟩

/-- Every root the loop visits was an accumulated or supplied root. -/
theorem scanRoots_visited_mem (pat : Str → Bool) (comps cwd : List Str)
    (fs : FPath → Option (List FSEntry)) :
    ∀ (roots : List FPath) (st : ScanState) (ws : List Str) (vis : List FPath) (p : FPath),
      p ∈ (scanRoots pat comps cwd fs roots st ws vis).visited → p ∈ vis ∨ p ∈ roots := by
  intro roots
  induction roots with
  | nil =>
    intro st ws vis p h
    rw [scanRoots_nil] at h
    exact Or.inl h
  | cons r rest ih =>
    intro st ws vis p h
    cases hfs : fs r with
    | none =>
      rw [scanRoots_missing pat comps cwd fs r rest st ws vis hfs] at h
      rcases ih _ _ _ p h with hv | hr
      · rcases List.mem_append.mp hv with hv | hv
        · exact Or.inl hv
        · simp only [List.mem_singleton] at hv
          exact Or.inr (by simp [hv])
      · exact Or.inr (List.mem_cons_of_mem r hr)
    | some entries =>
      cases hsc : searchForComponent pat comps cwd r entries st with
      | error e =>
        rw [scanRoots_found_err pat comps cwd fs r entries rest st ws vis e hfs hsc] at h
        have h' : p ∈ vis ++ [r] := h
        rcases List.mem_append.mp h' with hv | hv
        · exact Or.inl hv
        · simp only [List.mem_singleton] at hv
          exact Or.inr (by simp [hv])
      | ok st1 =>
        rw [scanRoots_found_ok pat comps cwd fs r entries rest st st1 ws vis hfs hsc] at h
        rcases ih _ _ _ p h with hv | hr
        · rcases List.mem_append.mp hv with hv | hv
          · exact Or.inl hv
          · simp only [List.mem_singleton] at hv
            exact Or.inr (by simp [hv])
        · exact Or.inr (List.mem_cons_of_mem r hr)

theorem resolveDir_isAbs (cwd : List Str) (base d : FPath) :
    (if d.isAbs then d else pathResolve2 cwd base d).isAbs = true := by
  by_cases h : d.isAbs = true
  · rw [if_pos h]
    exact h
  · rw [if_neg h]
    simp only [pathResolve2, if_neg h]
    by_cases hb : base.isAbs = true
    · rw [if_pos hb]
    · rw [if_neg hb]

theorem mem_mapResolve_isAbs (cwd : List Str) (base : FPath) (dirs0 : List FPath)
    (p : FPath)
    (hp : p ∈ dirs0.map (fun d => if d.isAbs then d else pathResolve2 cwd base d)) :
    p.isAbs = true := by
  obtain ⟨d, _, rfl⟩ := List.mem_map.mp hp
  exact resolveDir_isAbs cwd base d

/-- C8 counterexample: the `main.ts` variant hands a supplied relative
search directory straight to the scanner — the visited root `rel` is not
an absolute path, and no repository root is consulted. -/
theorem claimC8_main_relative_root_cex :
    (Main.run regexEngineModel cwd0 fsRel (String.toList "foo")
        (String.toList "rel") []).visitedRoots = [relRoot] ∧
      (Main.run regexEngineModel cwd0 fsRel (String.toList "foo")
        (String.toList "rel") []).failed = none ∧
      relRoot.isAbs = false := by
  have hres : scanRoots (Main.componentFileNameRegexOf regexEngineModel [])
      [String.toList "foo"] cwd0 fsRel
      ([String.toList "rel"].map parseFPath) initialScanState [] [] =
      ⟨none, initialScanState, [], [relRoot]⟩ := by
    rw [show [String.toList "rel"].map parseFPath = [relRoot] from by decide]
    rw [scanRoots_found_ok _ _ _ _ _ _ _ _ _ _ _
      (show fsRel relRoot = some [] from rfl) (searchForComponent_nil _ _ _ _ _)]
    exact scanRoots_nil _ _ _ _ _ _ _
  have hmain := main_run_scan_eq regexEngineModel cwd0 fsRel (String.toList "foo")
    (String.toList "rel") [] [String.toList "foo"] [String.toList "rel"]
    [String.toList "foo:latest"] [] ⟨none, initialScanState, [], [relRoot]⟩
    (by decide) (by decide) (by decide) (by decide) (by decide) (by decide) hres rfl
  refine ⟨?_, ?_, by decide⟩
  · rw [hmain]
  · rw [hmain]

/-- C8 (amended): in the dotfile variant every search root the scanner
is invoked on is an absolute path — relative supplied directories are
resolved against the repository root first — and when no repository
root is available the run fails terminally with "No repository path
found." before any scanning (whether or not relative directories were
given). The `main.ts` variant instead passes supplied directories to
the scanner unresolved. -/
theorem claimC8_part0_roots_absolute :
    (∀ (cwd : List Str) (fs : FPath → Option (List FSEntry)) (repo ci si ri : Str),
        ∀ p ∈ (Part0.run cwd fs (some repo) ci si ri).visitedRoots, p.isAbs = true) ∧
      (∀ (cwd : List Str) (fs : FPath → Option (List FSEntry)) (ci si ri : Str),
        ¬ci = [] →
          (Part0.run cwd fs none ci si ri).failed = some noRepositoryPathMsg ∧
          (Part0.run cwd fs none ci si ri).visitedRoots = []) := by
  constructor
  · intro cwd fs repo ci si ri p hp
    simp only [Part0.run] at hp
    split at hp
    · simp [failResult] at hp
    · split at hp
      · simp [failResult] at hp
      · split at hp
        · simp at hp
        · split at hp
          all_goals
          rcases scanRoots_visited_mem _ _ _ _ _ _ _ _ p hp with hvis | hroot
          all_goals try simp at hvis
          all_goals
          split at hroot
          all_goals
          first
            | (split at hroot
               · rcases List.mem_append.mp hroot with hin | hin
                 · exact mem_mapResolve_isAbs cwd (parseFPath repo) _ p hin
                 · simp only [List.mem_singleton] at hin
                   rw [hin]
               · exact mem_mapResolve_isAbs cwd (parseFPath repo) _ p hroot)
            | (rename_i hlen
               have h0 := List.length_eq_zero.mp (Nat.eq_zero_of_not_pos hlen)
               rw [h0] at hroot
               simp at hroot
               simp [hroot])
  · intro cwd fs ci si ri hci
    have hrun : Part0.run cwd fs none ci si ri = failResult noRepositoryPathMsg := by
      simp only [Part0.run, if_neg hci]
      rw [if_neg (by simpa [List.length_eq_zero] using components_ne_nil ci)]
    rw [hrun]
    exact ⟨rfl, rfl⟩

/-- Every error the roots loop can report is a parse-error message. -/
theorem scanRoots_err_msgs (pat : Str → Bool) (comps cwd : List Str)
    (fs : FPath → Option (List FSEntry)) :
    ∀ (roots : List FPath) (st : ScanState) (ws : List Str) (vis : List FPath) (e : Str),
      (scanRoots pat comps cwd fs roots st ws vis).err = some e →
        e = yamlParseErrorMsg ∨ e = nullComponentErrorMsg := by
  intro roots
  induction roots with
  | nil =>
    intro st ws vis e h
    rw [scanRoots_nil] at h
    exact Option.noConfusion h
  | cons r rest ih =>
    intro st ws vis e h
    cases hfs : fs r with
    | none =>
      rw [scanRoots_missing pat comps cwd fs r rest st ws vis hfs] at h
      exact ih _ _ _ e h
    | some entries =>
      cases hsc : searchForComponent pat comps cwd r entries st with
      | error e0 =>
        rw [scanRoots_found_err pat comps cwd fs r entries rest st ws vis e0 hfs hsc] at h
        have h' : e0 = e := Option.some.inj h
        subst h'
        exact searchForComponent_error_msgs pat comps cwd r entries st e0 hsc
      | ok st1 =>
        rw [scanRoots_found_ok pat comps cwd fs r entries rest st st1 ws vis hfs hsc] at h
        exact ih _ _ _ e h

theorem main_run_failed_not_noComponents (compile : Str → Str → Bool) (cwd : List Str)
    (fs : FPath → Option (List FSEntry)) (ci si ri : Str) :
    ¬(Main.run compile cwd fs ci si ri).failed = some noComponentsMsg := by
  intro h
  simp only [Main.run] at h
  split at h
  · exact absurd (Option.some.inj ((show (failResult inputRequiredMsg).failed =
      some noComponentsMsg from h))) (by decide)
  · split at h
    · rename_i hlen
      exact components_ne_nil ci (List.length_eq_zero.mp hlen)
    · split at h
      · exact absurd (Option.some.inj h) (by decide)
      · split at h
        · rename_i e heq
          rcases scanRoots_err_msgs _ _ _ _ _ _ _ _ e heq with h1 | h1 <;>
            (subst h1; exact absurd (Option.some.inj h) (by decide))
        · exact Option.noConfusion h

theorem part0_run_failed_not_noComponents (cwd : List Str)
    (fs : FPath → Option (List FSEntry)) (env : Option Str) (ci si ri : Str) :
    ¬(Part0.run cwd fs env ci si ri).failed = some noComponentsMsg := by
  intro h
  simp only [Part0.run] at h
  split at h
  · exact absurd (Option.some.inj ((show (failResult inputRequiredMsg).failed =
      some noComponentsMsg from h))) (by decide)
  · split at h
    · rename_i hlen
      exact components_ne_nil ci (List.length_eq_zero.mp hlen)
    · cases env with
      | none =>
        exact absurd (Option.some.inj ((show (failResult noRepositoryPathMsg).failed =
          some noComponentsMsg from h))) (by decide)
      | some repo =>
        simp only at h
        split at h
        · exact absurd (Option.some.inj h) (by decide)
        · split at h
          · rename_i e heq
            rcases scanRoots_err_msgs _ _ _ _ _ _ _ _ e heq with h1 | h1 <;>
              (subst h1; exact absurd (Option.some.inj h) (by decide))
          · exact Option.noConfusion h

/-- C10: the guard that would report "No components provided to search
for." is dead code in both variants — splitting any string on a comma
yields at least one element, so once the `components` input has been
read no run can fail with that message. An unset input fails as a
missing required input instead, and a whitespace-only input falls
through to the "No valid components provided to search for." error. -/
theorem claimC10_dead_guard :
    (∀ (compile : Str → Str → Bool) (cwd : List Str)
        (fs : FPath → Option (List FSEntry)) (ci si ri : Str),
      ¬(Main.run compile cwd fs ci si ri).failed = some noComponentsMsg) ∧
    (∀ (cwd : List Str) (fs : FPath → Option (List FSEntry)) (env : Option Str)
        (ci si ri : Str),
      ¬(Part0.run cwd fs env ci si ri).failed = some noComponentsMsg) ∧
    (∀ (compile : Str → Str → Bool) (cwd : List Str)
        (fs : FPath → Option (List FSEntry)) (si ri : Str),
      (Main.run compile cwd fs [] si ri).failed = some inputRequiredMsg) ∧
    (∀ (compile : Str → Str → Bool) (cwd : List Str)
        (fs : FPath → Option (List FSEntry)) (ci si ri : Str),
      ¬ci = [] → jsTrim ci = [] →
        (Main.run compile cwd fs ci si ri).failed = some noValidComponentsMsg) ∧
    (∀ (cwd : List Str) (fs : FPath → Option (List FSEntry)) (repo ci si ri : Str),
      ¬ci = [] → jsTrim ci = [] →
        (Part0.run cwd fs (some repo) ci si ri).failed = some noValidComponentsMsg) := by
  refine ⟨main_run_failed_not_noComponents, part0_run_failed_not_noComponents, ?_, ?_, ?_⟩
  · intro compile cwd fs si ri
    rfl
  · intro compile cwd fs ci si ri hci htrim
    have hval : (validateComponents ((jsSplit ',' (jsTrim ci)).map jsTrim)).1 = [] := by
      rw [htrim]
      decide
    rw [main_run_no_valid_eq compile cwd fs ci si ri hci hval]
  · intro cwd fs repo ci si ri hci htrim
    have hval : (validateComponents ((jsSplit ',' (jsTrim ci)).map jsTrim)).1 = [] := by
      rw [htrim]
      decide
    rw [part0_run_no_valid_eq cwd fs repo ci si ri hci hval]

def fooDotYamlManifest : FSEntry :=
  .file (String.toList ".component.yaml") (.obj (some (String.toList "foo")))

/-- Two manifest files declaring `foo` in one directory, in listing
order `.component.yml` then `.component.yaml`. -/
def twoFlatTree : List FSEntry := [fooDotManifest, fooDotYamlManifest]

/-- C7 witness: both manifests declare `foo`; the recorded path for
`foo:latest` is that of `.component.yaml`, the manifest visited last. -/
theorem claimC7_last_write_wins_witness :
    fooLatest ∈ [fooLatest] ∧
      scanOk (searchForComponent Part0.defaultComponentFileNameRegex [fooLatest] cwd0
        rootR twoFlatTree initialScanState) = true ∧
      scanResultMap (searchForComponent Part0.defaultComponentFileNameRegex [fooLatest] cwd0
          rootR twoFlatTree initialScanState) fooLatest =
        lastMatchPath cwd0 fooLatest
          (dfsManifests Part0.defaultComponentFileNameRegex rootR twoFlatTree) ∧
      lastMatchPath cwd0 fooLatest
          (dfsManifests Part0.defaultComponentFileNameRegex rootR twoFlatTree) =
        some ⟨true, [String.toList "r", String.toList ".component.yaml"]⟩ := by
  have heval : searchForComponent Part0.defaultComponentFileNameRegex [fooLatest] cwd0
      rootR twoFlatTree initialScanState =
      .ok (matchLoop (pathResolve cwd0 (pathJoin rootR (String.toList ".component.yaml")))
        (some (String.toList "foo")) [fooLatest]
        (matchLoop (pathResolve cwd0 (pathJoin rootR (String.toList ".component.yml")))
          (some (String.toList "foo")) [fooLatest] initialScanState)) := by
    rw [show twoFlatTree =
      [FSEntry.file (String.toList ".component.yml")
        (Yaml.obj (some (String.toList "foo"))),
       FSEntry.file (String.toList ".component.yaml")
        (Yaml.obj (some (String.toList "foo")))] from rfl]
    rw [searchForComponent_file_obj _ _ _ _ _ _ _ _ (by decide)]
    rw [searchForComponent_file_obj _ _ _ _ _ _ _ _ (by decide)]
    exact searchForComponent_nil _ _ _ _ _
  have hdfs : dfsManifests Part0.defaultComponentFileNameRegex rootR twoFlatTree =
      [(pathJoin rootR (String.toList ".component.yml"),
          Yaml.obj (some (String.toList "foo"))),
        (pathJoin rootR (String.toList ".component.yaml"),
          Yaml.obj (some (String.toList "foo")))] := by
    simp [dfsManifests, twoFlatTree, fooDotManifest, fooDotYamlManifest,
      Part0.defaultComponentFileNameRegex]
  refine ⟨List.mem_cons_self fooLatest [], ?_, ?_, ?_⟩
  · rw [heval]
    rfl
  · exact claimC7_last_write_wins Part0.defaultComponentFileNameRegex [fooLatest] cwd0
      rootR twoFlatTree fooLatest (List.mem_cons_self fooLatest [])
      (by rw [heval]; rfl)
  · rw [hdfs]
    decide

/-- C9: a key holding a value after a scan either held it before the
scan started, or is one of the iterated request specifiers, mapped to
the absolute resolved path of a depth-first visited manifest whose
`component` field equals the specifier's name part. -/
theorem claimC9_map_invariant (pat : Str → Bool) (comps : List Str) (cwd : List Str)
    (dirPath : FPath) (es : List FSEntry) (st : ScanState) (k : Str) (p : FPath)
    (h : scanResultMap (searchForComponent pat comps cwd dirPath es st) k = some p) :
    st.componentMap k = some p ∨
      (k ∈ comps ∧ p.isAbs = true ∧
        ∃ f ∈ dfsManifests pat dirPath es,
          pathResolve cwd f.1 = p ∧ f.2 = Yaml.obj (some (specifierName k))) := by
  cases hsc : searchForComponent pat comps cwd dirPath es st with
  | error e =>
    rw [hsc] at h
    simp [scanResultMap] at h
  | ok st' =>
    rw [hsc] at h
    simp only [scanResultMap] at h
    exact searchForComponent_invariant pat comps cwd dirPath es st st' hsc k p h

/-- C9 witness: the invariant read off a concrete one-manifest scan. -/
theorem claimC9_map_invariant_witness :
    scanResultMap (searchForComponent Part0.defaultComponentFileNameRegex [fooLatest] cwd0
        rootR [fooDotManifest] initialScanState) fooLatest =
      some ⟨true, [String.toList "r", String.toList ".component.yml"]⟩ ∧
      (initialScanState.componentMap fooLatest =
          some ⟨true, [String.toList "r", String.toList ".component.yml"]⟩ ∨
        (fooLatest ∈ [fooLatest] ∧
          (⟨true, [String.toList "r", String.toList ".component.yml"]⟩ : FPath).isAbs = true ∧
          ∃ f ∈ dfsManifests Part0.defaultComponentFileNameRegex rootR [fooDotManifest],
            pathResolve cwd0 f.1 =
              ⟨true, [String.toList "r", String.toList ".component.yml"]⟩ ∧
            f.2 = Yaml.obj (some (specifierName fooLatest)))) := by
  have heval : searchForComponent Part0.defaultComponentFileNameRegex [fooLatest] cwd0
      rootR [fooDotManifest] initialScanState =
      .ok (matchLoop (pathResolve cwd0 (pathJoin rootR (String.toList ".component.yml")))
        (some (String.toList "foo")) [fooLatest] initialScanState) := by
    rw [show fooDotManifest = FSEntry.file (String.toList ".component.yml")
      (Yaml.obj (some (String.toList "foo"))) from rfl]
    rw [searchForComponent_file_obj _ _ _ _ _ _ _ _ (by decide)]
    exact searchForComponent_nil _ _ _ _ _
  constructor
  · rw [heval]
    decide
  · exact claimC9_map_invariant Part0.defaultComponentFileNameRegex [fooLatest] cwd0
      rootR [fooDotManifest] initialScanState fooLatest
      ⟨true, [String.toList "r", String.toList ".component.yml"]⟩
      (by rw [heval]; decide)
